import Mathlib

/-!
Verification of the `repo_walker` repository: a shallow embedding of its
filter predicates, comment stripper, output formatter and git-diff pipeline,
together with theorems settling the specification claims.

Modelling conventions:
* Paths are strings (their `to_string_lossy` rendering); stdout is a list of
  strings, one entry per `println!` call.
* A compiled `regex::Regex` is modelled by its observable behaviour: an
  `is_match` function and a `captures` function.  `Regex::new` is an abstract
  `compile : String → Option RegexM` parameter (`none` models an invalid
  pattern).
* The tiktoken `p50k_base` encoder is an abstract `String → Nat` function.
* Rust panics (`unwrap` / `expect` on failing values) are modelled by an
  explicit `panicked` outcome or by `Option.none`, as noted at each site.
* `str::to_lowercase` is modelled on the ASCII fragment (the extensions and
  language names the program compares are ASCII).
-/

/-- Model of `char::to_lowercase` on the ASCII fragment: uppercase ASCII
letters (code points 65–90) are shifted by 32, all other characters are
unchanged. -/
def asciiLowerChar (c : Char) : Char :=
  if 65 ≤ c.toNat ∧ c.toNat ≤ 90 then Char.ofNat (c.toNat + 32) else c

/-- Model of `str::to_lowercase` (ASCII fragment). -/
def asciiLower (s : String) : String :=
  String.mk (s.toList.map asciiLowerChar)

/-- The final path component: model of `Path::file_name` for ordinary
file paths (everything after the last `/`). -/
def fileNameChars (cs : List Char) : List Char :=
  (cs.reverse.takeWhile (fun c => ¬ (c = '/'))).reverse

/-- Model of `Path::extension`: the portion of the file name after the final
`.`; `none` if there is no `.`, if the only `.` is the leading character of
the file name, or if the file name is `..` (mirroring
`std::path::split_file_at_dot`). -/
def pathExtension (path : String) : Option String :=
  let file := fileNameChars path.toList
  if file = ['.', '.'] then none
  else
    let pre := file.reverse.takeWhile (fun c => ¬ (c = '.'))
    if pre.length = file.length then none
    else if file.length = pre.length + 1 then none
    else some (String.mk pre.reverse)

/-- `src/file_utils/content.rs::file_extension_matches` (also duplicated in
`src/main.rs`): the raw extension (empty string when absent) is compared for
string equality against each configured extension. -/
def file_extension_matches (path : String) (extensions : List String) : Bool :=
  let extension := (pathExtension path).getD ""
  extensions.any (fun ext => ext == extension)

/-- `src/file_utils/content.rs::is_likely_binary` (also duplicated in
`src/main.rs`): a fixed set of lowercased suffixes is treated as binary. -/
def is_likely_binary (path : String) : Bool :=
  let extension := asciiLower ((pathExtension path).getD "")
  [ "jpg", "jpeg", "png", "gif", "bmp", "tiff", "pdf", "doc", "docx", "xls",
    "xlsx", "ppt", "pptx", "zip", "tar", "gz", "7z", "rar", "exe", "dll",
    "so", "dylib", "mp3", "mp4", "avi", "mov", "flv", "db", "sqlite"
  ].any (fun ext => ext == extension)

/-- A compiled `regex::Regex`, modelled by its observable behaviour on
strings.  `captures s = none` models "no match"; `captures s = some gs`
models a match whose capture groups (group 0 included, in order) are `gs`,
with `none` entries for groups that did not participate. -/
structure RegexM where
  as_str : String
  is_match : String → Bool
  captures : String → Option (List (Option String))

/-- `src/output/mod.rs::OutputFormatter`.  The `p50k_base` token encoder is
external; it is carried as an abstract function from strings to counts. -/
structure OutputFormatter where
  total_tokens : Nat
  encoding : String → Nat
  extensions : Option (List String)
  excludes : Option (List RegexM)

/-- `OutputFormatter::new` (the encoder is the externally loaded
`p50k_base`). -/
def OutputFormatter.new (encoding : String → Nat) : OutputFormatter :=
  { total_tokens := 0, encoding := encoding, extensions := none, excludes := none }

/-- `OutputFormatter::with_extensions`: configured extensions are lowercased
at configuration time. -/
def OutputFormatter.with_extensions (f : OutputFormatter) (exts : List String) :
    OutputFormatter :=
  { f with extensions := some (exts.map asciiLower) }

/-- `OutputFormatter::with_excludes`: each pattern is compiled with
`Regex::new(..).ok()` and the failures are silently dropped by `filter_map`.
`compile` models `Regex::new`. -/
def OutputFormatter.with_excludes (compile : String → Option RegexM)
    (f : OutputFormatter) (excludes : List String) : OutputFormatter :=
  { f with excludes := some (excludes.filterMap compile) }

/-- `OutputFormatter::count_tokens`. -/
def OutputFormatter.count_tokens (f : OutputFormatter) (text : String) : Nat :=
  f.encoding text

/-- `OutputFormatter::should_include_file`: the extension check lowercases
the file's extension and tests membership in the configured list; then any
matching exclude regex rejects the path. -/
def OutputFormatter.should_include_file (f : OutputFormatter) (path : String) :
    Bool :=
  let extOk :=
    match f.extensions with
    | some exts =>
        let extension := ((pathExtension path).map asciiLower).getD ""
        exts.contains extension
    | none => true
  if !extOk then false
  else
    match f.excludes with
    | some excludes => !(excludes.any (fun re => re.is_match path))
    | none => true

/-- Right-aligned width-4 rendering of a line number (`{:4}`). -/
def numberWidth4 (n : Nat) : String :=
  let s := toString n
  String.mk (List.replicate (4 - s.length) ' ') ++ s

/-- The 80-`=` banner of a per-file section. -/
def eqBanner80 : String := String.mk (List.replicate 80 '=')

/-- The 64-`=` banner of the header and summary. -/
def banner64 : String := String.mk (List.replicate 64 '=')

/-- Model of `str::lines`: split at `\n`, without a final empty line (the
`\r`-trimming of the Rust original is irrelevant to the sources here). -/
def rustLines (s : String) : List String :=
  let parts := s.splitOn "\n"
  if parts.getLast? = some "" then parts.dropLast else parts

/-- The stdout lines of one included per-file section of
`OutputFormatter::print_file_contents` (banner, `File:` line with the token
count, banner, numbered body). -/
def fileSection (f : OutputFormatter) (path contents : String) : List String :=
  ["", eqBanner80,
   "File: " ++ path ++ " (≈" ++ toString (f.count_tokens contents) ++ " tokens)",
   eqBanner80]
  ++ (rustLines contents).enum.map (fun p => numberWidth4 (p.1 + 1) ++ "│ " ++ p.2)

/-- `OutputFormatter::print_file_contents`: a path rejected by
`should_include_file` produces no output and leaves the state unchanged;
otherwise the token count of the contents is added to the running total and
the section is printed.  Stdout is modelled as a list of lines. -/
def OutputFormatter.print_file_contents (f : OutputFormatter)
    (path contents : String) : OutputFormatter × List String :=
  if !(f.should_include_file path) then (f, [])
  else
    let tokens := f.count_tokens contents
    ({ f with total_tokens := f.total_tokens + tokens }, fileSection f path contents)

/-- `OutputFormatter::format_token_usage`: the f64 computation
`(total / size * 100).round` is modelled by exact half-up rounding (ties
away from zero coincides with half-up for non-negative values); `{:.1}` of
the rounded value always renders as `<n>.0`. -/
def OutputFormatter.format_token_usage (f : OutputFormatter) (context_size : Nat) :
    String :=
  let pct := (200 * f.total_tokens + context_size) / (2 * context_size)
  toString pct ++ ".0% used (" ++ toString f.total_tokens ++ "/"
    ++ toString context_size ++ ")"

/-- `OutputFormatter::print_summary`. -/
def OutputFormatter.print_summary (f : OutputFormatter) : List String :=
  ["", "Analysis Summary", banner64,
   "Total tokens processed: " ++ toString f.total_tokens,
   "GPT-4 context window sizes for reference:",
   "- 8K context: " ++ f.format_token_usage 8192,
   "- 32K context: " ++ f.format_token_usage 32768]
  ++ (match f.extensions with
      | some exts => ["File extensions: " ++ String.intercalate ", " exts]
      | none => [])
  ++ (match f.excludes with
      | some excludes =>
          ["Exclude patterns: " ++ String.intercalate ", " (excludes.map (fun re => re.as_str))]
      | none => [])

/-- A formatter run over a stream of (path, contents) records: each record
is passed to `print_file_contents` in order, as the walker pipeline does. -/
def runFiles (f : OutputFormatter) : List (String × String) → OutputFormatter × List String
  | [] => (f, [])
  | (path, contents) :: rest =>
    let step := f.print_file_contents path contents
    let restRun := runFiles step.1 rest
    (restRun.1, step.2 ++ restRun.2)

/-- Sum of the token counts of exactly the records that pass
`should_include_file`. -/
def tokenSumEmitted (f : OutputFormatter) (files : List (String × String)) : Nat :=
  ((files.filter (fun pc => f.should_include_file pc.1)).map
    (fun pc => f.count_tokens pc.2)).sum

/-- Concatenation of the per-file sections of exactly the records that pass
`should_include_file`. -/
def emittedSections (f : OutputFormatter) (files : List (String × String)) :
    List String :=
  (files.filter (fun pc => f.should_include_file pc.1)).flatMap
    (fun pc => fileSection f pc.1 pc.2)

/-- `src/parser/mod.rs::SupportedLanguage`: the language variants of the
grammar set (`Rust`, `JavaScript`, `Go`; there is no Python variant). -/
inductive SupportedLanguage where
  | rust
  | javascript
  | go
deriving DecidableEq

/-- `SupportedLanguage::from_str`: lowercases the tag and accepts exactly
`rs`/`rust`, `js`/`javascript`, `go`; anything else is an error naming the
input. -/
def SupportedLanguage.from_str (s : String) : Except String SupportedLanguage :=
  match asciiLower s with
  | "rs" | "rust" => .ok .rust
  | "js" | "javascript" => .ok .javascript
  | "go" => .ok .go
  | _ => .error ("Unsupported language: " ++ s)

/-- Insertion of a range into a list sorted by start position, keeping the
insertion stable among equal starts. -/
def insertByStart (x : Nat × Nat) : List (Nat × Nat) → List (Nat × Nat)
  | [] => [x]
  | y :: ys => if x.1 ≤ y.1 then x :: y :: ys else y :: insertByStart x ys

/-- Model of `comment_ranges.sort_by_key(|&(start, _)| start)`: a stable
sort by start position. -/
def sortByStart (l : List (Nat × Nat)) : List (Nat × Nat) :=
  l.foldr insertByStart []

/-- The merge loop of `remove_comments`: a range starting at or before the
current end is absorbed (extending the end), otherwise the current range is
emitted and the new one becomes current. -/
def mergeLoop (current : Nat × Nat) : List (Nat × Nat) → List (Nat × Nat)
  | [] => [current]
  | (s, e) :: rest =>
    if s ≤ current.2 then mergeLoop (current.1, max current.2 e) rest
    else current :: mergeLoop (s, e) rest

/-- The overlap merge of `remove_comments`: the empty list is left alone,
otherwise the first range seeds the merge loop. -/
def mergeRanges : List (Nat × Nat) → List (Nat × Nat)
  | [] => []
  | r :: rest => mergeLoop r rest

/-- The rebuild loop of `remove_comments`: for each range `[a, b)` in order
the slice `source[last_end..a]` is appended and `last_end` becomes `b`; the
final tail `source[last_end..]` closes the result.  The source is a byte
list; `(s.drop i).take (j - i)` is the slice `s[i..j]`. -/
def rebuildLoop (s : List Char) (lastEnd : Nat) : List (Nat × Nat) → List Char
  | [] => s.drop lastEnd
  | (a, b) :: rest => (s.drop lastEnd).take (a - lastEnd) ++ rebuildLoop s b rest

/-- The pure core of `CodeParser::remove_comments` (lines 89–119): sort the
comment ranges by start, merge overlaps, and emit the complement of the
merged ranges. -/
def removeCommentsCore (src : List Char) (ranges : List (Nat × Nat)) : List Char :=
  rebuildLoop src 0 (mergeRanges (sortByStart ranges))

/-- `src/parser/mod.rs::CodeParser`: the tree-sitter parser for the current
language.  Parsing plus the comment-node query are external (the grammar
crates); they are modelled as one abstract function producing the comment
node byte ranges `[start_byte, end_byte)` in query-match order, with `none`
modelling a parse failure (`Parser::parse` returning `None`). -/
structure CodeParser where
  language : SupportedLanguage
  parse : String → Option (List (Nat × Nat))

/-- `CodeParser::remove_comments`: on parse failure the code calls
`.expect("Failed to parse code")` and panics — modelled as `none`; no
fallback value is produced.  Otherwise the comment ranges are removed by
`removeCommentsCore`.  (The language re-derivation of lines 65–70 always
finds one of the three supported grammars, since `new`/`set_language`
install no others.) -/
def CodeParser.remove_comments (cp : CodeParser) (source_code : String) :
    Option String :=
  match cp.parse source_code with
  | none => none
  | some comment_ranges =>
      some (String.mk (removeCommentsCore source_code.toList comment_ranges))

/-- A position `i` is covered by one of the half-open ranges. -/
def covered (ranges : List (Nat × Nat)) (i : Nat) : Prop :=
  ∃ r ∈ ranges, r.1 ≤ i ∧ i < r.2

instance (ranges : List (Nat × Nat)) (i : Nat) : Decidable (covered ranges i) :=
  List.decidableBEx _ ranges

/-- Reference semantics of comment removal: the bytes of the source whose
index is outside every range, in original order (`i` is the absolute index
of the head of `xs`). -/
def keepFrom (ranges : List (Nat × Nat)) : Nat → List Char → List Char
  | _, [] => []
  | i, x :: xs =>
    if covered ranges i then keepFrom ranges (i + 1) xs
    else x :: keepFrom ranges (i + 1) xs

/-- Separated range lists: starts at or after `i`, each range well-formed,
and each range ending before the next begins (the shape `mergeRanges`
produces). -/
def SepRanges : Nat → List (Nat × Nat) → Prop
  | _, [] => True
  | i, r :: rest => i ≤ r.1 ∧ r.1 ≤ r.2 ∧ SepRanges r.2 rest

/-- `rebuildLoop` re-expressed on the suffix starting at absolute index `i`
(a proof device; `rebuildLoop` is shown equal to it). -/
def rebuildAbs (i : Nat) (xs : List Char) : List (Nat × Nat) → List Char
  | [] => xs
  | (a, b) :: rest => xs.take (a - i) ++ rebuildAbs b (xs.drop (b - i)) rest

/-- Modelled from the spec: the `--strip-comments` flag and its wiring into
the formatter are absent from `src/` (only the test suite references
`with_strip_comments` and `--strip-comments`); per §4.5 step 5 and §4.7 of
the spec, the formatter applies comment stripping to the contents — when the
flag is enabled and the extension resolves to a supported language — before
token counting and before printing. -/
structure FormatterStrip where
  total_tokens : Nat
  encoding : String → Nat
  extensions : Option (List String)
  excludes : Option (List RegexM)
  strip_comments : Bool

/-- The filter of the strip-enabled formatter (same predicate as
`OutputFormatter::should_include_file`). -/
def FormatterStrip.should_include_file (f : FormatterStrip) (path : String) : Bool :=
  OutputFormatter.should_include_file
    { total_tokens := f.total_tokens, encoding := f.encoding,
      extensions := f.extensions, excludes := f.excludes } path

/-- Modelled from the spec: strip-enabled `print_file_contents`.
`stripFn` is the per-language comment stripper; stripping applies when the
flag is set and `SupportedLanguage::from_str` accepts the extension, and the
token count printed and accumulated is taken from the processed contents. -/
def FormatterStrip.print_file_contents (stripFn : SupportedLanguage → String → String)
    (f : FormatterStrip) (path contents : String) : FormatterStrip × List String :=
  if !(f.should_include_file path) then (f, [])
  else
    let processed :=
      if f.strip_comments then
        match SupportedLanguage.from_str ((pathExtension path).getD "") with
        | .ok lang => stripFn lang contents
        | .error _ => contents
      else contents
    let tokens := f.encoding processed
    ({ f with total_tokens := f.total_tokens + tokens },
     ["", eqBanner80,
      "File: " ++ path ++ " (≈" ++ toString tokens ++ " tokens)",
      eqBanner80]
     ++ (rustLines processed).enum.map (fun p => numberWidth4 (p.1 + 1) ++ "│ " ++ p.2))

/-- Modelled from the spec (and mirrored by the dispatch in the test suite):
resolving the extension to a language and stripping; an extension
`SupportedLanguage::from_str` rejects leaves the source unchanged (identity).
A panic of `remove_comments` is absorbed by the fallback only in this
modelled wiring. -/
def strip_dispatch (cp : SupportedLanguage → String → Option (List (Nat × Nat)))
    (ext contents : String) : String :=
  match SupportedLanguage.from_str ext with
  | .ok lang => (CodeParser.remove_comments ⟨lang, cp lang⟩ contents).getD contents
  | .error _ => contents

/-- A line of blob bytes, as split at `\n` by `print_file_content`: either
valid UTF-8 text or non-UTF-8 bytes carried as their `hex::encode`
rendering. -/
inductive BlobLine where
  | utf8 (line : String)
  | nonUtf8 (hexBytes : String)
deriving DecidableEq

/-- The object store of an opened repository: `repo.find_object(oid)`
followed by splitting `object.data` at `\n` (object ids are carried in
their hex display form); `none` models a lookup failure. -/
structure Repo where
  findObject : String → Option (List BlobLine)

/-- `gix::diff::tree::recorder::Change`, as consumed by `print_git_diff`. -/
inductive Change where
  | addition (entry_mode : Nat) (oid : String) (path : String)
  | deletion (entry_mode : Nat) (oid : String) (path : String)
  | modification (entry_mode : Nat) (oid : String) (path : String)
      (previous_entry_mode : Nat) (previous_oid : String)

/-- `src/main.rs::print_file_content` (also
`src/file_utils/content.rs::print_file_content`): each blob line is printed
with the diff prefix; with a pattern, only matching UTF-8 lines are printed;
non-UTF-8 lines are rendered in hex unconditionally.  A `find_object`
failure is an error (propagated by `?`). -/
def print_file_content (repo : Repo) (oid : String) (pfx : String)
    (pattern : Option RegexM) : Except String (List String) :=
  match repo.findObject oid with
  | none => Except.error ("object not found: " ++ oid)
  | some content =>
    Except.ok (content.filterMap (fun l =>
      match l with
      | BlobLine.utf8 line =>
          (match pattern with
           | some re => if re.is_match line then some (pfx ++ line) else none
           | none => some (pfx ++ line))
      | BlobLine.nonUtf8 hexBytes =>
          some (pfx ++ "[Non-UTF-8 data: " ++ hexBytes ++ "]")))

/-- `src/main.rs::process_change`: only the extension filter is consulted
(there is no exclude or binary filtering here); a rejected change returns
silently.  Otherwise the OID lines, the fenced diff block and a closing
blank line are printed.  The result is (stdout lines, error to be reported
on stderr by the caller). -/
def process_change (repo : Repo) (path : String) (extensions : Option (List String))
    (pattern : Option RegexM) (entry_mode : Nat) (oid : String) (pfx : String)
    (previous_oid : Option String) : List String × Option String :=
  let emit : List String × Option String :=
    let oidLines :=
      ["OID: " ++ oid]
      ++ (match previous_oid with
          | some p => ["Previous OID: " ++ p]
          | none => [])
      ++ ["```diff"]
    match print_file_content repo oid pfx pattern with
    | Except.error e => (oidLines, some e)
    | Except.ok body => (oidLines ++ body ++ ["```", ""], none)
  match extensions with
  | some exts =>
    if !(file_extension_matches path exts) then ([], none) else emit
  | none => emit

/-- The change loop of `print_git_diff`: additions with prefix `+`,
deletions with prefix `-`, modifications as old (`-`) then new (`+`, with
the previous oid); per-change errors go to stderr and the loop continues. -/
def processChanges (repo : Repo) (changes : List Change)
    (extensions : Option (List String)) (pattern : Option RegexM) : List String :=
  changes.flatMap (fun change =>
    match change with
    | Change.addition entry_mode oid path =>
        (process_change repo path extensions pattern entry_mode oid "+" none).1
    | Change.deletion entry_mode oid path =>
        (process_change repo path extensions pattern entry_mode oid "-" none).1
    | Change.modification entry_mode oid path previous_entry_mode previous_oid =>
        (process_change repo path extensions pattern previous_entry_mode
          previous_oid "-" none).1
        ++ (process_change repo path extensions pattern entry_mode oid "+"
          (some previous_oid)).1)

/-- How a run terminates: normally, with a propagated error (`?` from
`main`, printed to stderr, non-zero exit), or with a panic (`unwrap` /
`expect` on a failing value, also a non-zero exit). -/
inductive RunExit where
  | ok
  | err (msg : String)
  | panicked (msg : String)
deriving DecidableEq

/-- `src/main.rs::Args`, the binary's CLI record (notably: it has no
excludes list and no strip-comments flag). -/
structure Args where
  path : String
  pattern : Option String
  extensions : Option (List String)
  context_lines : Nat
  git_from : Option String
  git_to : Option String

/-- The external git collaborators of `print_git_diff`, in call order:
repository opening, revision resolution (`find_tag`), tree peeling
(`find_tree`) and the tree diff (`diff_tags`); `none` models the failure of
the corresponding step. -/
structure GitEnv where
  openRepo : Option Repo
  findTag : String → Option String
  findTree : String → Option Unit
  diffTags : Option (List Change)

/-- `src/main.rs::print_git_diff`, preserving the call order of the source:
the repository is opened; then the header `println!` evaluates
`args.git_from.as_ref().unwrap()` and `args.git_to.as_ref().unwrap()`
(panicking when a side is absent — there is no defaulting to `HEAD`); the
revisions are resolved, the trees peeled and diffed; only then is the
pattern compiled with `Regex::new(p).unwrap()` (panicking on an invalid
pattern, after the header has been printed); finally the changes are
processed. -/
def print_git_diff (compile : String → Option RegexM) (env : GitEnv)
    (args : Args) : List String × RunExit :=
  match env.openRepo with
  | none => ([], RunExit.err "failed to open repository")
  | some repo =>
    match args.git_from, args.git_to with
    | some gfrom, some gto =>
      let header := "### Git diff from " ++ gfrom ++ " to " ++ gto
      (match env.findTag gfrom with
       | none => ([header], RunExit.err ("failed to resolve revision " ++ gfrom))
       | some fromOid =>
         match env.findTag gto with
         | none => ([header], RunExit.err ("failed to resolve revision " ++ gto))
         | some toOid =>
           match env.findTree fromOid with
           | none => ([header], RunExit.err "failed to find tree")
           | some _ =>
             match env.findTree toOid with
             | none => ([header], RunExit.err "failed to find tree")
             | some _ =>
               match env.diffTags with
               | none => ([header], RunExit.err "failed to diff trees")
               | some changes =>
                 let exts := args.extensions.map (fun es => es.map asciiLower)
                 match args.pattern with
                 | some p =>
                   (match compile p with
                    | none => ([header], RunExit.panicked ("invalid regex: " ++ p))
                    | some re =>
                      (header :: processChanges repo changes exts (some re),
                       RunExit.ok))
                 | none =>
                   (header :: processChanges repo changes exts none, RunExit.ok))
    | _, _ => ([], RunExit.panicked "called Option::unwrap on a None value")

/-- `src/main.rs::print_file_contents` (filesystem mode): the `### File:`
heading and the contents inside a plain fence. -/
def print_file_contents_fs (path contents : String) : List String :=
  ["### File: " ++ path, "```"] ++ contents.splitOn "\n" ++ ["```", ""]

/-- `src/main.rs::print_file_contents_with_context`: for every line with a
regex capture, a numbered context window clamped to the file, the match line
marked `>`, then the present capture groups (group 0 skipped). -/
def print_file_contents_with_context (path contents : String) (re : RegexM)
    (context_lines : Nat) : List String :=
  ("### File: " ++ path) ::
  (let lines := rustLines contents
   lines.enum.flatMap (fun p =>
     match re.captures p.2 with
     | none => []
     | some caps =>
       let i := p.1
       let start := i - context_lines
       let stop := min (i + context_lines + 1) lines.length
       ["Match at line " ++ toString (i + 1) ++ ":", "```"]
       ++ ((lines.drop start).take (stop - start)).enum.map (fun q =>
            let line_number := start + q.1 + 1
            if line_number = i + 1 then
              toString line_number ++ ": > " ++ q.2
            else
              toString line_number ++ ":   " ++ q.2)
       ++ ["```", "Captured:"]
       ++ ((caps.drop 1).enum.filterMap (fun g =>
            g.2.map (fun c => "  Group " ++ toString (g.1 + 1) ++ ": " ++ c)))
       ++ [""]))

/-- The filesystem walk loop of `main`.  The ignore-aware walker is
external; the regular-file entries it yields are a parameter, each carrying
`none` when `fs::read_to_string` fails (that error goes to stderr and the
file is skipped).  Filters: extension, then binary suffix; empty contents
are skipped silently. -/
def walkLoop (files : List (String × Option String))
    (extensions : Option (List String)) (pattern : Option RegexM)
    (context_lines : Nat) : List String :=
  files.flatMap (fun entry =>
    let path := entry.1
    if (match extensions with
        | some exts => !(file_extension_matches path exts)
        | none => false) then []
    else if is_likely_binary path then []
    else
      match entry.2 with
      | none => []
      | some contents =>
        if contents = "" then []
        else
          match pattern with
          | some re => print_file_contents_with_context path contents re context_lines
          | none => print_file_contents_fs path contents)

/-- `src/main.rs::main`: diff mode when either git revision flag is
present; otherwise the pattern is compiled first (`?` on `Regex::new`
aborts the run before any stdout output), the extensions are lowercased,
and the walker entries are processed. -/
def run_main (compile : String → Option RegexM) (env : GitEnv)
    (files : List (String × Option String)) (args : Args) :
    List String × RunExit :=
  if args.git_from.isSome || args.git_to.isSome then
    print_git_diff compile env args
  else
    let exts := args.extensions.map (fun es => es.map asciiLower)
    match args.pattern with
    | some p =>
      (match compile p with
       | none => ([], RunExit.err ("invalid regex: " ++ p))
       | some re =>
         (walkLoop files exts (some re) args.context_lines, RunExit.ok))
    | none => (walkLoop files exts none args.context_lines, RunExit.ok)

/-! ## Theorems -/

theorem asciiLower_empty : asciiLower "" = "" := rfl

theorem contains_iff_mem_str (l : List String) (x : String) :
    l.contains x = true ↔ x ∈ l := by
  simp [List.contains, List.elem_iff]

/-- C1 (counterexample): a file named `test.RS` does NOT pass
`file_extension_matches` for the configured set `{rs}` — the raw extension
`RS` is compared for exact string equality against the (lowercased)
configured extension `rs`, so the claimed case-insensitive inclusion fails
on the walker/diff-side filter. -/
theorem C1_counterexample : file_extension_matches "test.RS" ["rs"] = false := by
  decide

/-- C1 (amended): the formatter's filter `should_include_file` includes a
path iff some configured extension equals the file's extension
case-insensitively (so `test.RS` passes for `{rs}` there); the walker/diff
filter `file_extension_matches` includes a path iff its raw, non-lowercased
extension is literally in the configured list (so `test.RS` does not pass
the lowercased set `{rs}`); and a path with no extension passes
`should_include_file` only when the empty string is itself in the
lowercased configured set. -/
theorem C1_extension_filters (enc : String → Nat) (exts : List String) (path : String) :
    (((OutputFormatter.new enc).with_extensions exts).should_include_file path = true
      ↔ ∃ e ∈ exts, asciiLower e = asciiLower ((pathExtension path).getD ""))
    ∧ (file_extension_matches path exts = true ↔ (pathExtension path).getD "" ∈ exts)
    ∧ (pathExtension path = none → ("" ∉ exts.map asciiLower) →
        ((OutputFormatter.new enc).with_extensions exts).should_include_file path = false) := by
  refine ⟨?_, ?_, ?_⟩
  · simp [OutputFormatter.new, OutputFormatter.with_extensions,
          OutputFormatter.should_include_file, List.contains, List.elem_iff]
    cases h : pathExtension path <;> simp [asciiLower_empty]
  · simp [file_extension_matches, List.any_eq_true]
  · intro hnone hmem
    simp [OutputFormatter.new, OutputFormatter.with_extensions,
          OutputFormatter.should_include_file, List.contains, List.elem_iff,
          hnone]
    simpa using hmem

/-- Witness for `C1_extension_filters`: `test.RS` passes the formatter
filter configured with `{rs}`, and the extensionless `README` does not. -/
theorem C1_extension_filters_witness :
    ((OutputFormatter.new (fun _ => 0)).with_extensions ["rs"]).should_include_file "test.RS" = true
    ∧ ((OutputFormatter.new (fun _ => 0)).with_extensions ["rs"]).should_include_file "README" = false :=
  ⟨((C1_extension_filters (fun _ => 0) ["rs"] "test.RS").1).mpr
      ⟨"rs", by decide, by decide⟩,
   (C1_extension_filters (fun _ => 0) ["rs"] "README").2.2 (by decide) (by decide)⟩

/-- C2 (code bug): when the grammar parser fails to produce a parse tree,
`CodeParser::remove_comments` does not fall back to the identity — the
`.expect("Failed to parse code")` panics (modelled as `none`), so the
stripping operation aborts instead of returning the source unchanged. -/
theorem C2_parse_failure_panics :
    CodeParser.remove_comments
      { language := SupportedLanguage.rust, parse := fun _ => none }
      "fn main() {}" = none := rfl

/-- C6 (counterexample): the extension `py` does not resolve to a supported
language — `SupportedLanguage::from_str` rejects it (there is no Python
variant or grammar). -/
theorem C6_counterexample :
    SupportedLanguage.from_str "py" = Except.error "Unsupported language: py" := rfl

/-- C6 (amended): the tags resolved by `SupportedLanguage::from_str` are
exactly `rs`, `rust`, `js`, `javascript` and `go` (case-insensitively) —
`py` is not among them — and an extension that does not resolve leaves the
source unchanged (identity) in the stripping dispatch. -/
theorem C6_supported_languages :
    (∀ s : String, (SupportedLanguage.from_str s).toOption.isSome
        = (["rs", "rust", "js", "javascript", "go"] : List String).contains (asciiLower s))
    ∧ (∀ (cp : SupportedLanguage → String → Option (List (Nat × Nat)))
        (ext contents : String),
        (SupportedLanguage.from_str ext).toOption = none →
        strip_dispatch cp ext contents = contents) := by
  constructor
  · intro s
    unfold SupportedLanguage.from_str
    split <;> simp_all [List.contains, List.elem_iff, Except.toOption, Option.isSome]
  · intro cp ext contents h
    cases hfs : SupportedLanguage.from_str ext with
    | ok lang => rw [hfs] at h; simp [Except.toOption] at h
    | error e => simp [strip_dispatch, hfs]

/-- Witness for `C6_supported_languages`: a `.md` extension leaves the
source unchanged. -/
theorem C6_supported_languages_witness :
    strip_dispatch (fun _ _ => some []) "md" "code" = "code" :=
  C6_supported_languages.2 (fun _ _ => some []) "md" "code" rfl

theorem print_file_contents_included (f : OutputFormatter) (path contents : String)
    (h : f.should_include_file path = true) :
    f.print_file_contents path contents
      = ({ f with total_tokens := f.total_tokens + f.count_tokens contents },
         fileSection f path contents) := by
  simp [OutputFormatter.print_file_contents, h]

theorem print_file_contents_rejected (f : OutputFormatter) (path contents : String)
    (h : f.should_include_file path = false) :
    f.print_file_contents path contents = (f, []) := by
  simp [OutputFormatter.print_file_contents, h]

theorem tokenSumEmitted_total (f : OutputFormatter) (t : Nat)
    (files : List (String × String)) :
    tokenSumEmitted { f with total_tokens := t } files = tokenSumEmitted f files := rfl

theorem emittedSections_total (f : OutputFormatter) (t : Nat)
    (files : List (String × String)) :
    emittedSections { f with total_tokens := t } files = emittedSections f files := rfl

theorem runFiles_spec (f : OutputFormatter) (files : List (String × String)) :
    (runFiles f files).1.total_tokens = f.total_tokens + tokenSumEmitted f files
    ∧ (runFiles f files).2 = emittedSections f files := by
  induction files generalizing f with
  | nil => simp [runFiles, tokenSumEmitted, emittedSections]
  | cons pc rest ih =>
    obtain ⟨path, contents⟩ := pc
    by_cases h : f.should_include_file path = true
    · have hrw := print_file_contents_included f path contents h
      have ihs := ih { f with total_tokens := f.total_tokens + f.count_tokens contents }
      rw [tokenSumEmitted_total, emittedSections_total] at ihs
      constructor
      · simp only [runFiles, hrw]
        rw [ihs.1]
        simp [tokenSumEmitted, h, Nat.add_assoc]
      · simp only [runFiles, hrw]
        rw [ihs.2]
        simp [emittedSections, h]
    · rw [Bool.not_eq_true] at h
      have hrw := print_file_contents_rejected f path contents h
      have ihs := ih f
      constructor
      · simp only [runFiles, hrw]
        rw [ihs.1]
        simp [tokenSumEmitted, h]
      · simp only [runFiles, hrw]
        rw [ihs.2]
        simp [emittedSections, h]

/-- C10: the `Total tokens processed` line of the summary reports exactly
the sum of the token counts of the per-file sections actually emitted; the
emitted output is the concatenation of the sections of exactly the records
passing the filter; and a record rejected by `should_include_file` leaves
the state untouched and produces no output. -/
theorem C10_summary_total (f : OutputFormatter) (files : List (String × String)) :
    (("Total tokens processed: " ++ toString (f.total_tokens + tokenSumEmitted f files))
        ∈ ((runFiles f files).1).print_summary)
    ∧ (runFiles f files).2 = emittedSections f files
    ∧ (runFiles f files).1.total_tokens = f.total_tokens + tokenSumEmitted f files
    ∧ (∀ path contents, f.should_include_file path = false →
        f.print_file_contents path contents = (f, [])) := by
  have h := runFiles_spec f files
  refine ⟨?_, h.2, h.1, ?_⟩
  · simp [OutputFormatter.print_summary, h.1]
  · intro path contents hrej
    exact print_file_contents_rejected f path contents hrej

/-- Witness for `C10_summary_total`: a `.md` record is rejected by an
`{rs}`-configured formatter without touching state or output. -/
theorem C10_summary_total_witness :
    ((OutputFormatter.new String.length).with_extensions ["rs"]).print_file_contents
        "a.md" "x"
      = ((OutputFormatter.new String.length).with_extensions ["rs"], []) :=
  (C10_summary_total ((OutputFormatter.new String.length).with_extensions ["rs"]) []).2.2.2
    "a.md" "x" (by decide)

/-- C3 (spec-modelled): with the strip flag set and the extension resolving
to a supported language, the strip-enabled formatter prints the per-file
header with the token count of the post-stripping contents, prints the
stripped body, and accumulates that same post-stripping count. -/
theorem C3_strip_before_count (stripFn : SupportedLanguage → String → String)
    (f : FormatterStrip) (path contents : String) (lang : SupportedLanguage)
    (hflag : f.strip_comments = true)
    (hlang : SupportedLanguage.from_str ((pathExtension path).getD "") = Except.ok lang)
    (hinc : f.should_include_file path = true) :
    (FormatterStrip.print_file_contents stripFn f path contents).2
      = ["", eqBanner80,
         "File: " ++ path ++ " (≈" ++ toString (f.encoding (stripFn lang contents))
           ++ " tokens)",
         eqBanner80]
        ++ (rustLines (stripFn lang contents)).enum.map
             (fun p => numberWidth4 (p.1 + 1) ++ "│ " ++ p.2)
    ∧ (FormatterStrip.print_file_contents stripFn f path contents).1.total_tokens
      = f.total_tokens + f.encoding (stripFn lang contents) := by
  constructor <;> simp [FormatterStrip.print_file_contents, hflag, hlang, hinc]

/-- Witness for `C3_strip_before_count`: a two-character stripped result is
counted with a length encoder. -/
theorem C3_strip_before_count_witness :
    (FormatterStrip.print_file_contents (fun _ _ => "ab")
        { total_tokens := 0, encoding := String.length, extensions := none,
          excludes := none, strip_comments := true } "a.rs" "xyz").1.total_tokens
      = 2 := by
  exact (C3_strip_before_count (fun _ _ => "ab")
    { total_tokens := 0, encoding := String.length, extensions := none,
      excludes := none, strip_comments := true } "a.rs" "xyz"
    SupportedLanguage.rust rfl rfl rfl).2

/-- C4 (code bug): with only `--git-to HEAD` supplied, `print_git_diff`
panics while unwrapping the absent `git_from` (inside the header
`println!` arguments) — the omitted side is not defaulted to `HEAD`, no
diff is produced and nothing reaches stdout. -/
theorem C4_missing_side_panics :
    print_git_diff (fun p => some { as_str := p, is_match := fun _ => false,
                                    captures := fun _ => none })
      { openRepo := some { findObject := fun _ => none },
        findTag := fun _ => some "t", findTree := fun _ => some (),
        diffTags := some [] }
      { path := ".", pattern := none, extensions := none, context_lines := 3,
        git_from := none, git_to := some "HEAD" }
      = ([], RunExit.panicked "called Option::unwrap on a None value") := rfl

/-- C5 (counterexample): a change whose path matches a configured exclude
regex is NOT skipped in diff mode.  The regex `secret` excludes
`secret.txt` under the formatter's filesystem filter, yet
`process_change` — which consults no exclude list at all — still emits the
OID line and the diff block for that path. -/
theorem C5_counterexample :
    (RegexM.is_match { as_str := "secret", is_match := fun s => s == "secret.txt",
                       captures := fun _ => none } "secret.txt" = true)
    ∧ (((OutputFormatter.new (fun _ => 0)).with_excludes
          (fun p => some { as_str := p, is_match := fun s => s == "secret.txt",
                           captures := fun _ => none })
          ["secret"]).should_include_file "secret.txt" = false)
    ∧ ((process_change { findObject := fun _ => some [BlobLine.utf8 "hi"] }
          "secret.txt" none none 33188 "abc123" "+" none).1
        = ["OID: abc123", "```diff", "+hi", "```", ""]) :=
  ⟨rfl, rfl, rfl⟩

/-- C5 (amended): diff-mode changes pass through only the extension filter —
the same `file_extension_matches` predicate the filesystem walker uses: with
extensions configured, a change produces no output exactly when that
predicate rejects its path; with no extensions configured every change
produces output; no exclude filtering exists in the diff pipeline. -/
theorem C5_diff_filters (repo : Repo) (path : String) (exts : List String)
    (pattern : Option RegexM) (entry_mode : Nat) (oid : String) (pfx : String)
    (previous_oid : Option String) :
    ((process_change repo path (some exts) pattern entry_mode oid pfx previous_oid).1 = []
      ↔ file_extension_matches path exts = false)
    ∧ (process_change repo path none pattern entry_mode oid pfx previous_oid).1 ≠ [] := by
  constructor
  · by_cases h : file_extension_matches path exts = true
    · cases hpc : print_file_content repo oid pfx pattern <;>
        simp [process_change, h, hpc]
    · rw [Bool.not_eq_true] at h
      simp [process_change, h]
  · cases hpc : print_file_content repo oid pfx pattern <;>
      simp [process_change, hpc]

/-- C9 (counterexample): an invalid `--excludes` regex does not fail the
run.  With a compiler rejecting the pattern `(`, `with_excludes` silently
drops it and builds the formatter with an empty exclude list; filtering then
proceeds as if no exclude had been configured, with no error anywhere. -/
theorem C9_counterexample :
    ((((OutputFormatter.new (fun _ => 0)).with_excludes (fun _ => none) ["("]).excludes
        = some [])
    ∧ ((OutputFormatter.new (fun _ => 0)).with_excludes (fun _ => none) ["("]).should_include_file
        "a.rs" = true) :=
  ⟨rfl, rfl⟩

/-- C9 (amended): an invalid `--pattern` in filesystem mode aborts the run
before any stdout output, and the walk never starts; an invalid
`--excludes` entry never fails — `with_excludes` keeps exactly the patterns
that compile and silently drops the rest; in diff mode the pattern is
compiled only after the header is printed and the revisions resolved and
diffed, so an invalid pattern panics with the header already emitted, and a
revision-resolution failure is reported whether or not the pattern is valid
(the pipeline having started regardless of the invalid regex). -/
theorem C9_invalid_regex (compile : String → Option RegexM) (p : String)
    (hbad : compile p = none) :
    (∀ (env : GitEnv) (files : List (String × Option String)) (args : Args),
      args.pattern = some p → args.git_from = none → args.git_to = none →
      run_main compile env files args = ([], RunExit.err ("invalid regex: " ++ p)))
    ∧ (∀ (fmt : OutputFormatter) (excludes : List String),
        (OutputFormatter.with_excludes compile fmt excludes).excludes
          = some (excludes.filterMap compile))
    ∧ (∀ (env : GitEnv) (args : Args) (gfrom gto : String) (repo : Repo)
        (fOid tOid : String) (changes : List Change),
        args.pattern = some p → args.git_from = some gfrom →
        args.git_to = some gto → env.openRepo = some repo →
        env.findTag gfrom = some fOid → env.findTag gto = some tOid →
        env.findTree fOid = some () → env.findTree tOid = some () →
        env.diffTags = some changes →
        print_git_diff compile env args
          = (["### Git diff from " ++ gfrom ++ " to " ++ gto],
             RunExit.panicked ("invalid regex: " ++ p)))
    ∧ (∀ (env : GitEnv) (args : Args) (gfrom gto : String) (repo : Repo),
        args.git_from = some gfrom → args.git_to = some gto →
        env.openRepo = some repo → env.findTag gfrom = none →
        print_git_diff compile env args
          = (["### Git diff from " ++ gfrom ++ " to " ++ gto],
             RunExit.err ("failed to resolve revision " ++ gfrom))) := by
  refine ⟨?_, ?_, ?_, ?_⟩
  · intro env files args hpat hfrom hto
    simp [run_main, hfrom, hto, hpat, hbad]
  · intro fmt excludes
    rfl
  · intro env args gfrom gto repo fOid tOid changes hpat hfrom hto hopen hf ht
      htr1 htr2 hdiff
    simp [print_git_diff, hpat, hfrom, hto, hopen, hf, ht, htr1, htr2, hdiff, hbad]
  · intro env args gfrom gto repo hfrom hto hopen hf
    simp [print_git_diff, hfrom, hto, hopen, hf]

/-- Witness for `C9_invalid_regex` with the invalid pattern `(`. -/
theorem C9_invalid_regex_witness :
    (run_main (fun _ => none)
        { openRepo := none, findTag := fun _ => none, findTree := fun _ => none,
          diffTags := none }
        []
        { path := ".", pattern := some "(", extensions := none, context_lines := 3,
          git_from := none, git_to := none }
      = ([], RunExit.err ("invalid regex: " ++ "(")))
    ∧ ((OutputFormatter.with_excludes (fun _ => none)
          (OutputFormatter.new (fun _ => 0)) ["("]).excludes
        = some (["("].filterMap (fun _ => (none : Option RegexM))))
    ∧ (print_git_diff (fun _ => none)
        { openRepo := some { findObject := fun _ => none },
          findTag := fun _ => some "t", findTree := fun _ => some (),
          diffTags := some [] }
        { path := ".", pattern := some "(", extensions := none, context_lines := 3,
          git_from := some "v1", git_to := some "v2" }
      = (["### Git diff from " ++ "v1" ++ " to " ++ "v2"],
         RunExit.panicked ("invalid regex: " ++ "(")))
    ∧ (print_git_diff (fun _ => none)
        { openRepo := some { findObject := fun _ => none },
          findTag := fun _ => none, findTree := fun _ => some (),
          diffTags := some [] }
        { path := ".", pattern := some "(", extensions := none, context_lines := 3,
          git_from := some "v1", git_to := some "v2" }
      = (["### Git diff from " ++ "v1" ++ " to " ++ "v2"],
         RunExit.err ("failed to resolve revision " ++ "v1"))) := by
  have h := C9_invalid_regex (fun _ => none) "(" rfl
  refine ⟨h.1 _ [] _ rfl rfl rfl, h.2.1 _ _, ?_, ?_⟩
  · exact h.2.2.1 _ _ "v1" "v2" { findObject := fun _ => none } "t" "t" []
      rfl rfl rfl rfl rfl rfl rfl rfl rfl
  · exact h.2.2.2 _ _ "v1" "v2" { findObject := fun _ => none }
      rfl rfl rfl rfl

theorem covered_nil (i : Nat) : ¬ covered [] i := by simp [covered]

theorem covered_cons (r : Nat × Nat) (rs : List (Nat × Nat)) (i : Nat) :
    covered (r :: rs) i ↔ (r.1 ≤ i ∧ i < r.2) ∨ covered rs i := by
  simp [covered]

theorem covered_perm (rs1 rs2 : List (Nat × Nat)) (h : List.Perm rs1 rs2) (j : Nat) :
    covered rs1 j ↔ covered rs2 j := by
  unfold covered
  constructor
  · rintro ⟨r, hr, hc⟩
    exact ⟨r, h.mem_iff.mp hr, hc⟩
  · rintro ⟨r, hr, hc⟩
    exact ⟨r, h.mem_iff.mpr hr, hc⟩

theorem keepFrom_nil_ranges (i : Nat) (xs : List Char) : keepFrom [] i xs = xs := by
  induction xs generalizing i with
  | nil => rfl
  | cons x xs ih =>
    rw [keepFrom, if_neg (covered_nil i)]
    rw [ih]

theorem keepFrom_congr (rs1 rs2 : List (Nat × Nat)) (i : Nat) (xs : List Char)
    (h : ∀ j, i ≤ j → (covered rs1 j ↔ covered rs2 j)) :
    keepFrom rs1 i xs = keepFrom rs2 i xs := by
  induction xs generalizing i with
  | nil => rfl
  | cons x xs ih =>
    have hi := h i (Nat.le_refl i)
    by_cases hc : covered rs1 i
    · rw [keepFrom, if_pos hc, keepFrom, if_pos (hi.mp hc)]
      exact ih (i + 1) (fun j hj => h j (by omega))
    · rw [keepFrom, if_neg hc, keepFrom, if_neg (fun hc2 => hc (hi.mpr hc2))]
      rw [ih (i + 1) (fun j hj => h j (by omega))]

theorem keepFrom_uncovered_seg (rs : List (Nat × Nat)) (n : Nat) (i : Nat)
    (xs : List Char) (h : ∀ m, m < n → ¬ covered rs (i + m)) :
    keepFrom rs i xs = xs.take n ++ keepFrom rs (i + n) (xs.drop n) := by
  induction n generalizing i xs with
  | zero => simp
  | succ n ih =>
    cases xs with
    | nil => simp [keepFrom]
    | cons x xs =>
      have h0 : ¬ covered rs i := by
        have := h 0 (by omega)
        simpa using this
      rw [keepFrom, if_neg h0]
      have hrest : ∀ m, m < n → ¬ covered rs (i + 1 + m) := by
        intro m hm
        have heq : i + 1 + m = i + (m + 1) := by omega
        rw [heq]
        exact h (m + 1) (by omega)
      rw [ih (i + 1) xs hrest]
      have heq2 : i + 1 + n = i + (n + 1) := by omega
      simp [heq2]

theorem keepFrom_covered_seg (rs : List (Nat × Nat)) (n : Nat) (i : Nat)
    (xs : List Char) (h : ∀ m, m < n → covered rs (i + m)) :
    keepFrom rs i xs = keepFrom rs (i + n) (xs.drop n) := by
  induction n generalizing i xs with
  | zero => simp
  | succ n ih =>
    cases xs with
    | nil => simp [keepFrom]
    | cons x xs =>
      have h0 : covered rs i := by
        have := h 0 (by omega)
        simpa using this
      rw [keepFrom, if_pos h0]
      have hrest : ∀ m, m < n → covered rs (i + 1 + m) := by
        intro m hm
        have heq : i + 1 + m = i + (m + 1) := by omega
        rw [heq]
        exact h (m + 1) (by omega)
      rw [ih (i + 1) xs hrest]
      have heq2 : i + 1 + n = i + (n + 1) := by omega
      simp [heq2]

theorem sep_starts_ge (i : Nat) (rs : List (Nat × Nat)) (h : SepRanges i rs) :
    ∀ r ∈ rs, i ≤ r.1 ∧ r.1 ≤ r.2 := by
  induction rs generalizing i with
  | nil => intro r hr; cases hr
  | cons r0 rest ih =>
    obtain ⟨h1, h2, h3⟩ := h
    intro r hr
    rcases List.mem_cons.mp hr with rfl | hr
    · exact ⟨h1, h2⟩
    · have := ih r0.2 h3 r hr
      exact ⟨by omega, this.2⟩

theorem sep_not_covered_lt (i j : Nat) (rs : List (Nat × Nat))
    (h : SepRanges i rs) (hj : j < i) : ¬ covered rs j := by
  rintro ⟨r, hr, hc1, hc2⟩
  have := sep_starts_ge i rs h r hr
  omega

theorem rebuildLoop_eq_abs (s : List Char) (lastEnd : Nat)
    (rs : List (Nat × Nat)) (h : SepRanges lastEnd rs) :
    rebuildLoop s lastEnd rs = rebuildAbs lastEnd (s.drop lastEnd) rs := by
  induction rs generalizing lastEnd with
  | nil => rfl
  | cons r rest ih =>
    obtain ⟨a, b⟩ := r
    obtain ⟨h1, h2, h3⟩ := h
    simp only at h1 h2
    rw [rebuildLoop, rebuildAbs, ih b h3]
    have hdd : (s.drop lastEnd).drop (b - lastEnd) = s.drop b := by
      rw [List.drop_drop]
      congr 1
      omega
    rw [hdd]

theorem rebuildAbs_eq_keepFrom (rs : List (Nat × Nat)) (i : Nat) (xs : List Char)
    (h : SepRanges i rs) :
    rebuildAbs i xs rs = keepFrom rs i xs := by
  induction rs generalizing i xs with
  | nil => rw [rebuildAbs, keepFrom_nil_ranges]
  | cons r rest ih =>
    obtain ⟨a, b⟩ := r
    obtain ⟨h1, h2, h3⟩ := h
    have hseg1 : ∀ m, m < a - i → ¬ covered ((a, b) :: rest) (i + m) := by
      intro m hm
      rw [covered_cons]
      rintro (⟨hc1, hc2⟩ | hc)
      · omega
      · exact sep_not_covered_lt b (i + m) rest h3 (by omega) hc
    have hseg2 : ∀ m, m < b - a → covered ((a, b) :: rest) (a + m) := by
      intro m hm
      rw [covered_cons]
      exact Or.inl ⟨by omega, by omega⟩
    rw [keepFrom_uncovered_seg ((a, b) :: rest) (a - i) i xs hseg1]
    have hia : i + (a - i) = a := by omega
    rw [hia]
    rw [keepFrom_covered_seg ((a, b) :: rest) (b - a) a (xs.drop (a - i)) hseg2]
    have hab : a + (b - a) = b := by omega
    rw [hab, List.drop_drop]
    have hdr : a - i + (b - a) = b - i := by
      simp only at h1 h2
      omega
    rw [hdr]
    rw [keepFrom_congr ((a, b) :: rest) rest b (xs.drop (b - i))
      (fun j hj => by
        rw [covered_cons]
        constructor
        · rintro (⟨hc1, hc2⟩ | hc)
          · omega
          · exact hc
        · exact Or.inr)]
    rw [rebuildAbs, ih b (xs.drop (b - i)) h3]

theorem mergeLoop_covered (c : Nat × Nat) (rs : List (Nat × Nat)) (j : Nat)
    (hc : ∀ r ∈ rs, c.1 ≤ r.1)
    (hs : List.Pairwise (fun x y => x.1 ≤ y.1) rs) :
    covered (mergeLoop c rs) j ↔ covered (c :: rs) j := by
  induction rs generalizing c with
  | nil => rw [mergeLoop]
  | cons r rest ih =>
    obtain ⟨s, e⟩ := r
    rw [List.pairwise_cons] at hs
    by_cases hse : s ≤ c.2
    · rw [mergeLoop, if_pos hse]
      rw [ih (c.1, max c.2 e) (fun r hr => hc r (List.mem_cons_of_mem _ hr)) hs.2]
      have hcs : c.1 ≤ s := hc (s, e) (List.mem_cons_self _ _)
      rw [covered_cons, covered_cons, covered_cons]
      constructor
      · rintro (⟨h1, h2⟩ | h)
        · simp only at h1 h2
          rcases Nat.lt_or_ge j c.2 with hlt | hge
          · exact Or.inl ⟨h1, hlt⟩
          · refine Or.inr (Or.inl ⟨by omega, by omega⟩)
        · exact Or.inr (Or.inr h)
      · rintro (⟨h1, h2⟩ | ⟨h1, h2⟩ | h)
        · exact Or.inl ⟨h1, by simp only; omega⟩
        · exact Or.inl ⟨by omega, by simp only; omega⟩
        · exact Or.inr h
    · rw [mergeLoop, if_neg hse]
      rw [covered_cons, covered_cons]
      rw [ih (s, e) (fun r hr => hs.1 r hr) hs.2]

theorem mergeLoop_sep (i : Nat) (c : Nat × Nat) (rs : List (Nat × Nat))
    (hi : i ≤ c.1) (hc2 : c.1 ≤ c.2)
    (hr : ∀ r ∈ rs, c.1 ≤ r.1 ∧ r.1 ≤ r.2)
    (hs : List.Pairwise (fun x y => x.1 ≤ y.1) rs) :
    SepRanges i (mergeLoop c rs) := by
  induction rs generalizing c i with
  | nil => exact ⟨hi, hc2, trivial⟩
  | cons r rest ih =>
    obtain ⟨s, e⟩ := r
    rw [List.pairwise_cons] at hs
    by_cases hse : s ≤ c.2
    · rw [mergeLoop, if_pos hse]
      refine ih i (c.1, max c.2 e) hi (by simp only; omega) ?_ hs.2
      intro r hrm
      exact ⟨(hr r (List.mem_cons_of_mem _ hrm)).1, (hr r (List.mem_cons_of_mem _ hrm)).2⟩
    · rw [mergeLoop, if_neg hse]
      refine ⟨hi, hc2, ?_⟩
      refine ih c.2 (s, e) (by omega) (hr (s, e) (List.mem_cons_self _ _)).2 ?_ hs.2
      intro r hrm
      exact ⟨hs.1 r hrm, (hr r (List.mem_cons_of_mem _ hrm)).2⟩

theorem mergeRanges_covered (rs : List (Nat × Nat)) (j : Nat)
    (hs : List.Pairwise (fun x y => x.1 ≤ y.1) rs) :
    covered (mergeRanges rs) j ↔ covered rs j := by
  cases rs with
  | nil => rw [mergeRanges]
  | cons r rest =>
    rw [List.pairwise_cons] at hs
    exact mergeLoop_covered r rest j (fun x hx => hs.1 x hx) hs.2

theorem mergeRanges_sep (rs : List (Nat × Nat))
    (hwf : ∀ r ∈ rs, r.1 ≤ r.2)
    (hs : List.Pairwise (fun x y => x.1 ≤ y.1) rs) :
    SepRanges 0 (mergeRanges rs) := by
  cases rs with
  | nil => trivial
  | cons r rest =>
    rw [List.pairwise_cons] at hs
    exact mergeLoop_sep 0 r rest (Nat.zero_le _) (hwf r (List.mem_cons_self _ _))
      (fun x hx => ⟨hs.1 x hx, hwf x (List.mem_cons_of_mem _ hx)⟩) hs.2

theorem insertByStart_perm (x : Nat × Nat) (l : List (Nat × Nat)) :
    List.Perm (insertByStart x l) (x :: l) := by
  induction l with
  | nil => exact List.Perm.refl _
  | cons y ys ih =>
    rw [insertByStart]
    by_cases h : x.1 ≤ y.1
    · rw [if_pos h]
    · rw [if_neg h]
      exact (ih.cons y).trans (List.Perm.swap x y ys)

theorem sortByStart_perm (l : List (Nat × Nat)) : List.Perm (sortByStart l) l := by
  induction l with
  | nil => exact List.Perm.refl _
  | cons x xs ih =>
    have : sortByStart (x :: xs) = insertByStart x (sortByStart xs) := rfl
    rw [this]
    exact (insertByStart_perm x (sortByStart xs)).trans (ih.cons x)

theorem insertByStart_pairwise (x : Nat × Nat) (l : List (Nat × Nat))
    (h : List.Pairwise (fun a b => a.1 ≤ b.1) l) :
    List.Pairwise (fun a b => a.1 ≤ b.1) (insertByStart x l) := by
  induction l with
  | nil => simp [insertByStart]
  | cons y ys ih =>
    rw [List.pairwise_cons] at h
    rw [insertByStart]
    by_cases hxy : x.1 ≤ y.1
    · rw [if_pos hxy]
      refine List.Pairwise.cons ?_ (List.Pairwise.cons h.1 h.2)
      intro z hz
      rcases List.mem_cons.mp hz with rfl | hz
      · exact hxy
      · exact Nat.le_trans hxy (h.1 z hz)
    · rw [if_neg hxy]
      refine List.Pairwise.cons ?_ (ih h.2)
      intro z hz
      have hz2 := (insertByStart_perm x ys).mem_iff.mp hz
      rcases List.mem_cons.mp hz2 with rfl | hz2
      · omega
      · exact h.1 z hz2

theorem sortByStart_pairwise (l : List (Nat × Nat)) :
    List.Pairwise (fun a b => a.1 ≤ b.1) (sortByStart l) := by
  induction l with
  | nil => exact List.Pairwise.nil
  | cons x xs ih =>
    have : sortByStart (x :: xs) = insertByStart x (sortByStart xs) := rfl
    rw [this]
    exact insertByStart_pairwise x (sortByStart xs) ih

theorem removeCommentsCore_spec (src : List Char) (ranges : List (Nat × Nat))
    (hwf : ∀ r ∈ ranges, r.1 ≤ r.2) :
    removeCommentsCore src ranges = keepFrom ranges 0 src := by
  unfold removeCommentsCore
  have hperm := sortByStart_perm ranges
  have hpair := sortByStart_pairwise ranges
  have hwf2 : ∀ r ∈ sortByStart ranges, r.1 ≤ r.2 :=
    fun r hr => hwf r (hperm.mem_iff.mp hr)
  have hsep := mergeRanges_sep (sortByStart ranges) hwf2 hpair
  rw [rebuildLoop_eq_abs src 0 _ hsep, List.drop_zero]
  rw [rebuildAbs_eq_keepFrom _ 0 src hsep]
  apply keepFrom_congr
  intro j _
  rw [mergeRanges_covered _ j hpair]
  exact covered_perm _ _ hperm j

/-- C7: when parsing succeeds with well-formed comment node ranges (each
with `start ≤ end` and `end` within the source, as tree-sitter guarantees),
`remove_comments` returns exactly the source bytes whose index lies outside
every comment range, in original order (`keepFrom`): every non-comment byte
is preserved verbatim in order and every comment byte is removed. -/
theorem C7_strip_complement (cp : CodeParser) (src : String)
    (ranges : List (Nat × Nat))
    (hp : cp.parse src = some ranges)
    (hwf : ∀ r ∈ ranges, r.1 ≤ r.2)
    (hbound : ∀ r ∈ ranges, r.2 ≤ src.toList.length) :
    cp.remove_comments src = some (String.mk (keepFrom ranges 0 src.toList)) := by
  have hc : cp.remove_comments src
      = some (String.mk (removeCommentsCore src.toList ranges)) := by
    unfold CodeParser.remove_comments
    rw [hp]
  rw [hc, removeCommentsCore_spec src.toList ranges hwf]

/-- Witness for `C7_strip_complement`: stripping the ranges `[0,3)` and
`[2,4)` (overlapping) from `//x\nok` keeps exactly the bytes at indices 4
and 5. -/
theorem C7_strip_complement_witness :
    CodeParser.remove_comments
      { language := SupportedLanguage.rust,
        parse := fun _ => some [(0, 3), (2, 4)] }
      "//x\nok" = some "ok" := by
  have h := C7_strip_complement
    { language := SupportedLanguage.rust, parse := fun _ => some [(0, 3), (2, 4)] }
    "//x\nok" [(0, 3), (2, 4)] rfl (by decide) (by decide)
  exact h.trans (by decide)

/-- Witness for `C5_diff_filters`: a `.md` change is skipped silently under
the configured set `{rs}`, and an unfiltered change emits output. -/
theorem C5_diff_filters_witness :
    ((process_change { findObject := fun _ => some [BlobLine.utf8 "hi"] }
        "a.md" (some ["rs"]) none 0 "abc" "+" none).1 = [])
    ∧ (process_change { findObject := fun _ => some [BlobLine.utf8 "hi"] }
        "a.md" none none 0 "abc" "+" none).1 ≠ [] :=
  ⟨(C5_diff_filters { findObject := fun _ => some [BlobLine.utf8 "hi"] }
      "a.md" ["rs"] none 0 "abc" "+" none).1.mpr (by decide),
   (C5_diff_filters { findObject := fun _ => some [BlobLine.utf8 "hi"] }
      "a.md" ["rs"] none 0 "abc" "+" none).2⟩
